import Mathlib

/-!
Shallow embedding of the forensic engine in services/forensic-engine/main.py:
flow-key canonicalization, streaming session aggregation, threshold rule
flags, timeline sorting and deterministic artifact assembly.

Timestamps (Python floats) are modelled as rationals; integer fields parsed
by safe_int are modelled as optional integers; the external pieces
(tshark invocation, file stat, sha1/sha256 digests, wall clock) enter as
explicit parameters of the analysis function.
-/

namespace Kisame

/-- Lexicographic code-point comparison on char lists: this is Python
string comparison. -/
def charListLt : List Char → List Char → Bool
  | [], [] => false
  | [], _ :: _ => true
  | _ :: _, [] => false
  | c1 :: t1, c2 :: t2 =>
    if c1 < c2 then true
    else if c2 < c1 then false
    else charListLt t1 t2

/-- Python string comparison s < t. -/
def strLt (s t : String) : Bool := charListLt s.data t.data

/-- Python str.strip: drop whitespace at both ends. -/
def pyStrip (s : String) : String :=
  ⟨((s.data.dropWhile Char.isWhitespace).reverse.dropWhile Char.isWhitespace).reverse⟩

/-- Python `x or y` for an optional string x with default y: the first
truthy (present and non-empty) value wins. -/
def pyOrStr : Option String → String → String
  | none, d => d
  | some s, d => if s = "" then d else s

/-- An endpoint dict as built by canonical_pair: original IP string and
original optional port. -/
structure Endpoint where
  ip : String
  port : Option Int
deriving DecidableEq, Repr

/-- canonical_endpoint: the comparison encoding, with an absent port
encoded as -1. -/
def canonical_endpoint (ip : String) (port : Option Int) : String × Int :=
  (ip, match port with | none => -1 | some p => p)

/-- Python tuple comparison `a <= b` on (str, int) pairs: lexicographic,
strings by code points. -/
def tupLe (a b : String × Int) : Prop :=
  strLt a.1 b.1 ∨ (a.1 = b.1 ∧ a.2 ≤ b.2)

instance (a b : String × Int) : Decidable (tupLe a b) :=
  inferInstanceAs (Decidable (_ ∨ _))

/-- canonical_pair: assign the endpoints to (a, b) so that the encoding of
a is less-or-equal the encoding of b. -/
def canonical_pair (src_ip : String) (src_port : Option Int)
    (dst_ip : String) (dst_port : Option Int) : Endpoint × Endpoint :=
  if tupLe (canonical_endpoint src_ip src_port) (canonical_endpoint dst_ip dst_port) then
    (⟨src_ip, src_port⟩, ⟨dst_ip, dst_port⟩)
  else
    (⟨dst_ip, dst_port⟩, ⟨src_ip, src_port⟩)

/-- Python f-string rendering of an optional port: None prints as "None". -/
def portStr : Option Int → String
  | none => "None"
  | some p => toString p

/-- The session_key f-string
"{transport}:{a.ip}:{a.port}->{b.ip}:{b.port}". -/
def session_key (transport : String) (a b : Endpoint) : String :=
  transport ++ (":" ++ a.ip ++ ":" ++ portStr a.port ++ "->" ++ b.ip ++ ":" ++ portStr b.port)

/-- One tshark output row. Numeric fields carry the result of
safe_int / safe_float applied to the raw column (absent column or parse
failure is none); string fields carry the raw column. -/
structure Row where
  frame_number : Option Int := none
  time_epoch : Option ℚ := none
  frame_len : Option Int := none
  ip_src : Option String := none
  ip_dst : Option String := none
  ipv6_src : Option String := none
  ipv6_dst : Option String := none
  tcp_srcport : Option Int := none
  tcp_dstport : Option Int := none
  udp_srcport : Option Int := none
  udp_dstport : Option Int := none
  frame_protocols : Option String := none
  dns_qry_name : Option String := none
  http_request_method : Option String := none
  http_host : Option String := none
  http_request_uri : Option String := none
  tls_server_name : Option String := none
deriving DecidableEq, Repr

def rowSrcIp (r : Row) : String := pyStrip (pyOrStr r.ip_src (pyOrStr r.ipv6_src ""))

def rowDstIp (r : Row) : String := pyStrip (pyOrStr r.ip_dst (pyOrStr r.ipv6_dst ""))

/-- Transport selection: any TCP port present selects tcp with the TCP
ports; else any UDP port selects udp; else other with no ports. -/
def transportPorts (r : Row) : String × Option Int × Option Int :=
  if r.tcp_srcport.isSome ∨ r.tcp_dstport.isSome then ("tcp", r.tcp_srcport, r.tcp_dstport)
  else if r.udp_srcport.isSome ∨ r.udp_dstport.isSome then ("udp", r.udp_srcport, r.udp_dstport)
  else ("other", none, none)

def rowTransport (r : Row) : String := (transportPorts r).1

def rowA (r : Row) : Endpoint :=
  (canonical_pair (rowSrcIp r) (transportPorts r).2.1 (rowDstIp r) (transportPorts r).2.2).1

def rowB (r : Row) : Endpoint :=
  (canonical_pair (rowSrcIp r) (transportPorts r).2.1 (rowDstIp r) (transportPorts r).2.2).2

def rowSessionKey (r : Row) : String := session_key (rowTransport r) (rowA r) (rowB r)

def rowFrameNo (r : Row) : Int := r.frame_number.getD 0

def rowTsQ (r : Row) : ℚ := r.time_epoch.getD 0

def rowBytes (r : Row) : Int := r.frame_len.getD 0

def rowChain (r : Row) : String := pyStrip (pyOrStr r.frame_protocols "")

def rowDns (r : Row) : String := pyStrip (pyOrStr r.dns_qry_name "")

def rowHttpMethod (r : Row) : String := pyStrip (pyOrStr r.http_request_method "")

def rowHttpHost (r : Row) : String := pyStrip (pyOrStr r.http_host "")

def rowHttpUri (r : Row) : String := pyStrip (pyOrStr r.http_request_uri "")

def rowSni (r : Row) : String := pyStrip (pyOrStr r.tls_server_name "")

/-- The session key attributed to a row, or none when the row is dropped
(missing frame number or timestamp, or missing source or destination
address). -/
def rowKey (r : Row) : Option String :=
  if r.frame_number = none ∨ r.time_epoch = none then none
  else if rowSrcIp r = "" ∨ rowDstIp r = "" then none
  else some (rowSessionKey r)

structure DnsQuery where
  name : String
  ts : ℚ
  evidence_frame : Int
deriving DecidableEq, Repr

structure HttpRequest where
  method : String
  host : Option String
  uri : Option String
  ts : ℚ
  evidence_frame : Int
deriving DecidableEq, Repr

structure TlsSni where
  server_name : String
  ts : ℚ
  evidence_frame : Int
deriving DecidableEq, Repr

structure Evidence where
  first_frame : Int
  last_frame : Int
  sample_frames : List Int
deriving DecidableEq, Repr

structure Session where
  id : String
  transport : String
  endpoint_a : Endpoint
  endpoint_b : Endpoint
  first_ts : ℚ
  last_ts : ℚ
  packet_count : Nat
  byte_count : Int
  protocol_chains : List (String × Nat)
  evidence : Evidence
  dns_queries : List DnsQuery
  http_requests : List HttpRequest
  tls_sni : List TlsSni
  duration_seconds : ℚ
  rule_flags : List String
deriving DecidableEq, Repr

structure TimelineEvent where
  ts : ℚ
  session_id : String
  kind : String
  summary : String
  evidence_frame : Int
deriving DecidableEq, Repr

/-- The fresh session dict created on the first record of a flow key. -/
def newSession (sid transport : String) (a b : Endpoint) (ts : ℚ) (frameNo : Int) : Session :=
  { id := sid, transport := transport, endpoint_a := a, endpoint_b := b,
    first_ts := ts, last_ts := ts, packet_count := 0, byte_count := 0,
    protocol_chains := [], evidence := ⟨frameNo, frameNo, []⟩,
    dns_queries := [], http_requests := [], tls_sni := [],
    duration_seconds := 0, rule_flags := [] }

/-- Python dict-counter increment for the protocol-chain histogram. -/
def bumpChain : List (String × Nat) → String → List (String × Nat)
  | [], c => [(c, 1)]
  | (k, n) :: rest, c =>
    if k = c then (k, n + 1) :: rest else (k, n) :: bumpChain rest c

/-- All per-record session mutations (counters, bounds, evidence, chain
histogram, typed observations). -/
def updateSession (cap : Int) (s : Session) (r : Row) (frameNo : Int) (ts : ℚ) : Session :=
  { s with
    packet_count := s.packet_count + 1,
    byte_count := s.byte_count + rowBytes r,
    first_ts := min s.first_ts ts,
    last_ts := max s.last_ts ts,
    evidence :=
      { first_frame := min s.evidence.first_frame frameNo,
        last_frame := max s.evidence.last_frame frameNo,
        sample_frames :=
          if (s.evidence.sample_frames.length : Int) < cap then
            s.evidence.sample_frames ++ [frameNo]
          else s.evidence.sample_frames },
    protocol_chains :=
      if rowChain r = "" then s.protocol_chains
      else bumpChain s.protocol_chains (rowChain r),
    dns_queries :=
      s.dns_queries ++
        (if rowDns r = "" then [] else [⟨rowDns r, ts, frameNo⟩]),
    http_requests :=
      s.http_requests ++
        (if rowHttpMethod r ≠ "" ∧ (rowHttpHost r ≠ "" ∨ rowHttpUri r ≠ "") then
          [⟨rowHttpMethod r,
            if rowHttpHost r = "" then none else some (rowHttpHost r),
            if rowHttpUri r = "" then none else some (rowHttpUri r),
            ts, frameNo⟩]
        else []),
    tls_sni :=
      s.tls_sni ++
        (if rowSni r = "" then [] else [⟨rowSni r, ts, frameNo⟩]) }

/-- The timeline events emitted while ingesting one record, in emission
order: dns_query, then http_request, then tls_sni. -/
def rowEvents (sid : String) (r : Row) (ts : ℚ) (frameNo : Int) : List TimelineEvent :=
  (if rowDns r = "" then [] else
    [⟨ts, sid, "dns_query", "DNS query: " ++ rowDns r, frameNo⟩]) ++
  (if rowHttpMethod r ≠ "" ∧ (rowHttpHost r ≠ "" ∨ rowHttpUri r ≠ "") then
    [⟨ts, sid, "http_request",
      "HTTP request: " ++ rowHttpMethod r ++ " " ++ rowHttpHost r ++ rowHttpUri r, frameNo⟩]
  else []) ++
  (if rowSni r = "" then [] else
    [⟨ts, sid, "tls_sni", "TLS SNI: " ++ rowSni r, frameNo⟩])

/-- Lookup in the insertion-ordered session dict. -/
def lookupS : List (String × Session) → String → Option Session
  | [], _ => none
  | (k', v) :: rest, k => if k' = k then some v else lookupS rest k

/-- Python dict write sessions[key] = v: update in place if present,
append at the end otherwise. -/
def updateAssoc : List (String × Session) → String → Session → List (String × Session)
  | [], k, v => [(k, v)]
  | (k', v') :: rest, k, v =>
    if k' = k then (k', v) :: rest else (k', v') :: updateAssoc rest k v

structure EngineState where
  sessions : List (String × Session)
  events : List TimelineEvent
  packet_count : Nat
  first_ts : Option ℚ
  last_ts : Option ℚ
deriving DecidableEq, Repr

def initState : EngineState := ⟨[], [], 0, none, none⟩

/-- ts if first_ts is None else min(first_ts, ts). -/
def mergeMinQ : Option ℚ → ℚ → ℚ
  | none, x => x
  | some y, x => min y x

/-- ts if last_ts is None else max(last_ts, ts). -/
def mergeMaxQ : Option ℚ → ℚ → ℚ
  | none, x => x
  | some y, x => max y x

/-- The fresh session created for a row on a previously-unseen key. -/
def rowNewSession (hashFn : String → String) (r : Row) : Session :=
  newSession (hashFn (rowSessionKey r)) (rowTransport r) (rowA r) (rowB r)
    (rowTsQ r) (rowFrameNo r)

/-- All per-record session mutations applied with the row's own frame
number and timestamp. -/
def updRow (cap : Int) (s : Session) (r : Row) : Session :=
  updateSession cap s r (rowFrameNo r) (rowTsQ r)

/-- The session value written back for a row attributed to a session:
the looked-up session, or a fresh one, mutated by the row. -/
def hitSession (cap : Int) (hashFn : String → String) (o : Option Session) (r : Row) : Session :=
  updRow cap (o.getD (rowNewSession hashFn r)) r

/-- One per-key step of the aggregation, seen from a single flow key. -/
def applyHit (cap : Int) (hashFn : String → String) (o : Option Session) (r : Row) : Option Session :=
  some (hitSession cap hashFn o r)

/-- The aggregate state a single flow key reaches from its own rows. -/
def hitAgg (cap : Int) (hashFn : String → String) (l : List Row) : Option Session :=
  l.foldl (applyHit cap hashFn) none

/-- The subsequence of rows attributed to the key k. -/
def keyRows (k : String) (rows : List Row) : List Row :=
  rows.filter (fun r => decide (rowKey r = some k))

/-- The order-independent aggregates of a session named by the
permutation-invariance property: packet count, byte total, time bounds,
rule flags. -/
def sessionAggregates (s : Session) : Nat × Int × ℚ × ℚ × List String :=
  (s.packet_count, s.byte_count, s.first_ts, s.last_ts, s.rule_flags)

/-- One iteration of the record loop: count the row, drop it if frame
number or timestamp is missing, track the global time bounds, drop it if
source or destination address is missing, and otherwise fold it into its
session and emit its timeline events. -/
def step (cap : Int) (hashFn : String → String) (st : EngineState) (r : Row) : EngineState :=
  let st1 := { st with packet_count := st.packet_count + 1 }
  if r.frame_number = none ∨ r.time_epoch = none then st1
  else
    let ts := rowTsQ r
    let st2 := { st1 with
      first_ts := some (mergeMinQ st1.first_ts ts),
      last_ts := some (mergeMaxQ st1.last_ts ts) }
    if rowSrcIp r = "" ∨ rowDstIp r = "" then st2
    else
      let key := rowSessionKey r
      { st2 with
        sessions := updateAssoc st2.sessions key
          (hitSession cap hashFn (lookupS st2.sessions key) r),
        events := st2.events ++ rowEvents (hashFn key) r ts (rowFrameNo r) }

/-- The whole record loop. -/
def runEngine (cap : Int) (hashFn : String → String) (rows : List Row) : EngineState :=
  rows.foldl (step cap hashFn) initState

/-- The rule engine: fixed inclusive thresholds, each flag evaluated
independently, in source order. -/
def ruleFlags (packetCount : Nat) (duration : ℚ) (byteCount : Int) (transport : String) : List String :=
  (if 1000 ≤ packetCount then ["many_packets"] else []) ++
  (if 60 ≤ duration then ["long_duration"] else []) ++
  (if 10 * 1024 * 1024 ≤ byteCount then ["large_bytes"] else []) ++
  (if transport = "other" then ["non_tcp_udp"] else [])

/-- Post-pass on one session: compute duration and rule flags. -/
def finalizeSession (s : Session) : Session :=
  let duration := s.last_ts - s.first_ts
  { s with duration_seconds := duration,
           rule_flags := ruleFlags s.packet_count duration s.byte_count s.transport }

/-- The finalized session dict, still in insertion order. -/
def finalSessions (cap : Int) (hashFn : String → String) (rows : List Row) : List (String × Session) :=
  (runEngine cap hashFn rows).sessions.map (fun kv => (kv.1, finalizeSession kv.2))

/-- Python string comparison s <= t. -/
def strLe (s t : String) : Bool := strLt s t || s == t

/-- Sort key for sessions: (first_ts ascending, session id ascending). -/
def sessionLe (s1 s2 : Session) : Bool :=
  decide (s1.first_ts < s2.first_ts) ||
    (decide (s1.first_ts = s2.first_ts) && strLe s1.id s2.id)

/-- Sort key for the timeline: timestamp ascending. -/
def eventLe (e1 e2 : TimelineEvent) : Bool :=
  decide (e1.ts ≤ e2.ts)

/-- The global observed time bounds of the state cover the instant t. -/
def coversState (st : EngineState) (t : ℚ) : Prop :=
  st.first_ts ≠ none ∧ st.last_ts ≠ none ∧
  st.first_ts.getD 0 ≤ t ∧ t ≤ st.last_ts.getD 0

/-! ### Concrete fixtures used in witnesses -/

/-- Identity digest used to instantiate the abstract hash parameter in
concrete runs. -/
def idHash : String → String := fun s => s

def row1 : Row :=
  { frame_number := some 1, time_epoch := some 5, ip_src := some "a", ip_dst := some "b" }

def row2 : Row :=
  { frame_number := some 2, time_epoch := some 7, ip_src := some "a", ip_dst := some "b",
    frame_len := some 100 }

/-- A row with neither addresses nor frame number nor timestamp. -/
def rowEmpty : Row := {}

/-- A row with frame number and timestamp but no addresses. -/
def rowNoAddr : Row := { frame_number := some 3, time_epoch := some 9 }

/-- The aggregate state of the conversation of row1 and row2. -/
def sess12 : Session :=
  { id := "other:a:None->b:None", transport := "other",
    endpoint_a := ⟨"a", none⟩, endpoint_b := ⟨"b", none⟩,
    first_ts := 5, last_ts := 7, packet_count := 2, byte_count := 100,
    protocol_chains := [], evidence := ⟨1, 2, [1, 2]⟩,
    dns_queries := [], http_requests := [], tls_sni := [],
    duration_seconds := 0, rule_flags := [] }

structure PcapMeta where
  path : String
  file_name : String
  size_bytes : Int
  sha256 : Option String
  packets_analyzed : Nat
  first_ts : Option ℚ
  last_ts : Option ℚ
deriving DecidableEq, Repr

structure Tooling where
  tshark_path : String
  tshark_version : Option String
deriving DecidableEq, Repr

structure Artifact where
  schema_version : Nat
  generated_at : String
  pcap : PcapMeta
  tooling : Tooling
  sessions : List Session
  timeline : List TimelineEvent
deriving DecidableEq, Repr

/-- analyze_pcap: run the record loop, finalize every session, and
assemble the artifact with sessions sorted by (first_ts, id) and the
timeline sorted by timestamp (both stably). External effects are
parameters: the stat size, the streaming sha256 of the file, the resolved
tool identity, and the generation clock. -/
def analyze_pcap (pcapPath fileName : String) (sizeBytes : Int)
    (sha256File : String → String) (includeSha256 : Bool)
    (tsharkBin : String) (tsharkVersion : Option String) (now : String)
    (cap : Int) (hashFn : String → String) (rows : List Row) : Artifact :=
  let st := runEngine cap hashFn rows
  { schema_version := 1,
    generated_at := now,
    pcap := { path := pcapPath, file_name := fileName, size_bytes := sizeBytes,
              sha256 := if includeSha256 then some (sha256File pcapPath) else none,
              packets_analyzed := st.packet_count,
              first_ts := st.first_ts, last_ts := st.last_ts },
    tooling := { tshark_path := tsharkBin, tshark_version := tsharkVersion },
    sessions := ((finalSessions cap hashFn rows).map Prod.snd).mergeSort sessionLe,
    timeline := st.events.mergeSort eventLe }

/-! ### Order lemmas for the endpoint comparison -/

theorem charListLt_irrefl : ∀ l : List Char, charListLt l l = false
  | [] => rfl
  | c :: t => by simp [charListLt, charListLt_irrefl t]

theorem charListLt_asymm : ∀ l1 l2 : List Char,
    charListLt l1 l2 = true → charListLt l2 l1 = true → False
  | [], [], h1, _ => by simp [charListLt] at h1
  | [], _ :: _, _, h2 => by simp [charListLt] at h2
  | _ :: _, [], h1, _ => by simp [charListLt] at h1
  | c1 :: t1, c2 :: t2, h1, h2 => by
    by_cases hlt : c1 < c2
    · have : ¬ c2 < c1 := lt_asymm hlt
      simp [charListLt, hlt, this] at h2
    · by_cases hgt : c2 < c1
      · simp [charListLt, hlt, hgt] at h1
      · simp [charListLt, hlt, hgt] at h1 h2
        exact charListLt_asymm t1 t2 h1 h2

theorem charListLt_trichotomy : ∀ l1 l2 : List Char,
    charListLt l1 l2 = true ∨ l1 = l2 ∨ charListLt l2 l1 = true
  | [], [] => Or.inr (Or.inl rfl)
  | [], _ :: _ => Or.inl rfl
  | _ :: _, [] => Or.inr (Or.inr rfl)
  | c1 :: t1, c2 :: t2 => by
    rcases lt_trichotomy c1 c2 with hlt | heq | hgt
    · exact Or.inl (by simp [charListLt, hlt])
    · subst heq
      rcases charListLt_trichotomy t1 t2 with h | h | h
      · exact Or.inl (by simp [charListLt, h])
      · exact Or.inr (Or.inl (by rw [h]))
      · exact Or.inr (Or.inr (by simp [charListLt, h]))
    · refine Or.inr (Or.inr ?_)
      simp [charListLt, hgt, lt_asymm hgt]

theorem charListLt_trans : ∀ l1 l2 l3 : List Char,
    charListLt l1 l2 = true → charListLt l2 l3 = true → charListLt l1 l3 = true
  | [], _, _ :: _, _, _ => rfl
  | [], _ :: _, [], _, h2 => by simp [charListLt] at h2
  | [], [], [], h1, _ => by simp [charListLt] at h1
  | _ :: _, [], _, h1, _ => by simp [charListLt] at h1
  | _ :: _, _ :: _, [], _, h2 => by simp [charListLt] at h2
  | c1 :: t1, c2 :: t2, c3 :: t3, h1, h2 => by
    by_cases h12 : c1 < c2
    · by_cases h23 : c2 < c3
      · simp [charListLt, lt_trans h12 h23]
      · by_cases h32 : c3 < c2
        · simp [charListLt, h23, h32] at h2
        · have heq : c2 = c3 := le_antisymm (not_lt.mp h32) (not_lt.mp h23)
          subst heq
          simp [charListLt, h12]
    · by_cases h21 : c2 < c1
      · simp [charListLt, h12, h21] at h1
      · have heq : c1 = c2 := le_antisymm (not_lt.mp h21) (not_lt.mp h12)
        subst heq
        simp only [charListLt, h12, lt_irrefl, if_false, if_neg] at h1
        by_cases h23 : c1 < c3
        · simp [charListLt, h23]
        · by_cases h32 : c3 < c1
          · simp [charListLt, h23, h32] at h2
          · simp only [charListLt, h23, h32, if_false] at h2 ⊢
            exact charListLt_trans t1 t2 t3 (by simpa using h1) h2

theorem tupLe_total (a b : String × Int) : tupLe a b ∨ tupLe b a := by
  rcases charListLt_trichotomy a.1.data b.1.data with h | h | h
  · exact Or.inl (Or.inl h)
  · have hs : a.1 = b.1 := String.ext h
    rcases Int.le_total a.2 b.2 with h2 | h2
    · exact Or.inl (Or.inr ⟨hs, h2⟩)
    · exact Or.inr (Or.inr ⟨hs.symm, h2⟩)
  · exact Or.inr (Or.inl h)

theorem strLt_irrefl (s : String) : strLt s s = false := by
  simp [strLt, charListLt_irrefl]

theorem tupLe_antisymm {a b : String × Int} (h1 : tupLe a b) (h2 : tupLe b a) : a = b := by
  rcases h1 with h1 | ⟨he1, hp1⟩
  · rcases h2 with h2 | ⟨he2, _⟩
    · exact (charListLt_asymm _ _ h1 h2).elim
    · rw [he2] at h1
      rw [strLt_irrefl] at h1
      exact absurd h1 (by simp)
  · rcases h2 with h2 | ⟨_, hp2⟩
    · rw [he1] at h2
      rw [strLt_irrefl] at h2
      exact absurd h2 (by simp)
    · exact Prod.ext he1 (le_antisymm hp1 hp2)

/-- The -1 encoding is injective as long as present ports are
non-negative. -/
theorem canonical_endpoint_inj {ip1 ip2 : String} {p1 p2 : Option Int}
    (h1 : 0 ≤ p1.getD 0) (h2 : 0 ≤ p2.getD 0)
    (h : canonical_endpoint ip1 p1 = canonical_endpoint ip2 p2) :
    ip1 = ip2 ∧ p1 = p2 := by
  cases p1 <;> cases p2 <;>
    simp only [canonical_endpoint, Prod.mk.injEq] at h <;>
    simp only [Option.getD_some, Option.getD_none] at h1 h2
  · exact ⟨h.1, rfl⟩
  · exact absurd (h.2 ▸ h2) (by simp)
  · exact absurd (h.2.symm ▸ h1) (by simp)
  · exact ⟨h.1, by rw [h.2]⟩

/-- Claim C1: canonicalizing the endpoint pair is symmetric: for any
transport and any two endpoints whose ports (when present) are genuine
non-negative port numbers, (src, dst) and (dst, src) canonicalize to the
same ordered pair, hence to the same session key string, hence to the
same session id under any digest function. -/
theorem canonical_pair_symm (transport src_ip dst_ip : String)
    (src_port dst_port : Option Int) (hashFn : String → String)
    (hs : 0 ≤ src_port.getD 0) (hd : 0 ≤ dst_port.getD 0) :
    canonical_pair src_ip src_port dst_ip dst_port
      = canonical_pair dst_ip dst_port src_ip src_port ∧
    session_key transport (canonical_pair src_ip src_port dst_ip dst_port).1
        (canonical_pair src_ip src_port dst_ip dst_port).2
      = session_key transport (canonical_pair dst_ip dst_port src_ip src_port).1
        (canonical_pair dst_ip dst_port src_ip src_port).2 ∧
    hashFn (session_key transport (canonical_pair src_ip src_port dst_ip dst_port).1
        (canonical_pair src_ip src_port dst_ip dst_port).2)
      = hashFn (session_key transport (canonical_pair dst_ip dst_port src_ip src_port).1
        (canonical_pair dst_ip dst_port src_ip src_port).2) := by
  have hmain : canonical_pair src_ip src_port dst_ip dst_port
      = canonical_pair dst_ip dst_port src_ip src_port := by
    by_cases h : tupLe (canonical_endpoint src_ip src_port) (canonical_endpoint dst_ip dst_port)
    · by_cases h' : tupLe (canonical_endpoint dst_ip dst_port) (canonical_endpoint src_ip src_port)
      · obtain ⟨hip, hport⟩ := canonical_endpoint_inj hs hd (tupLe_antisymm h h')
        subst hip
        subst hport
        rfl
      · unfold canonical_pair
        rw [if_pos h, if_neg h']
    · have h' : tupLe (canonical_endpoint dst_ip dst_port) (canonical_endpoint src_ip src_port) :=
        (tupLe_total _ _).resolve_left h
      unfold canonical_pair
      rw [if_neg h, if_pos h']
  exact ⟨hmain, by rw [hmain], by rw [hmain]⟩

/-- Concrete instance of canonical_pair_symm: the two directions of a TCP
conversation between 10.0.0.1:51000 and 93.184.216.34:443 canonicalize
identically. -/
theorem canonical_pair_symm_witness :
    (0:Int) ≤ (Option.some (51000:Int)).getD 0 ∧
    (0:Int) ≤ (Option.some (443:Int)).getD 0 ∧
    canonical_pair "10.0.0.1" (some 51000) "93.184.216.34" (some 443)
      = canonical_pair "93.184.216.34" (some 443) "10.0.0.1" (some 51000) :=
  ⟨by decide, by decide,
    (canonical_pair_symm "tcp" "10.0.0.1" "93.184.216.34" (some 51000) (some 443)
      (fun s => s) (by decide) (by decide)).1⟩

/-! ### Rule engine -/

/-- Claim C2: the rule flags of a finalized session are exactly the ones
whose inclusive threshold is met, each evaluated independently:
many_packets iff packet_count >= 1000, long_duration iff duration
(last_ts - first_ts) >= 60, large_bytes iff byte_count >= 10*1024*1024,
non_tcp_udp iff the transport is "other". -/
theorem rule_flags_thresholds (s : Session) :
    (("many_packets" ∈ (finalizeSession s).rule_flags) ↔ 1000 ≤ s.packet_count) ∧
    (("long_duration" ∈ (finalizeSession s).rule_flags) ↔ 60 ≤ s.last_ts - s.first_ts) ∧
    (("large_bytes" ∈ (finalizeSession s).rule_flags) ↔ 10 * 1024 * 1024 ≤ s.byte_count) ∧
    (("non_tcp_udp" ∈ (finalizeSession s).rule_flags) ↔ s.transport = "other") ∧
    (finalizeSession s).duration_seconds = s.last_ts - s.first_ts := by
  simp only [finalizeSession, ruleFlags]
  refine ⟨?_, ?_, ?_, ?_, trivial⟩ <;>
    · by_cases h1 : 1000 ≤ s.packet_count <;>
      by_cases h2 : (60:ℚ) ≤ s.last_ts - s.first_ts <;>
      by_cases h3 : (10 * 1024 * 1024 : Int) ≤ s.byte_count <;>
      by_cases h4 : s.transport = "other" <;>
      simp [h1, h2, h3, h4]

/-! ### Session dict lemmas -/

theorem lookupS_updateAssoc (m : List (String × Session)) (k k' : String) (v : Session) :
    lookupS (updateAssoc m k v) k' = if k = k' then some v else lookupS m k' := by
  induction m with
  | nil => simp [updateAssoc, lookupS]
  | cons a rest ih =>
    obtain ⟨ka, va⟩ := a
    by_cases ha : ka = k
    · subst ha
      simp only [updateAssoc, if_pos rfl, lookupS]
      by_cases hk : ka = k'
      · simp [hk]
      · simp [hk]
    · simp only [updateAssoc, if_neg ha, lookupS]
      by_cases hk : ka = k'
      · subst hk
        have : ¬ k = ka := fun h => ha h.symm
        simp [this]
      · simp [hk, ih]

theorem mem_updateAssoc {m : List (String × Session)} {k : String} {v : Session}
    {x : String × Session} (h : x ∈ updateAssoc m k v) : x = (k, v) ∨ x ∈ m := by
  induction m with
  | nil =>
    simp [updateAssoc] at h
    exact Or.inl h
  | cons a rest ih =>
    obtain ⟨ka, va⟩ := a
    simp only [updateAssoc] at h
    by_cases ha : ka = k
    · rw [if_pos ha] at h
      rcases List.mem_cons.mp h with h | h
      · exact Or.inl (by rw [h, ha])
      · exact Or.inr (List.mem_cons_of_mem _ h)
    · rw [if_neg ha] at h
      rcases List.mem_cons.mp h with h | h
      · exact Or.inr (h ▸ List.mem_cons_self _ _)
      · rcases ih h with h' | h'
        · exact Or.inl h'
        · exact Or.inr (List.mem_cons_of_mem _ h')

theorem lookupS_mem : ∀ {m : List (String × Session)} {k : String} {s : Session},
    lookupS m k = some s → (k, s) ∈ m
  | [], _, _, h => by simp [lookupS] at h
  | (ka, va) :: rest, k, s, h => by
    simp only [lookupS] at h
    by_cases hk : ka = k
    · rw [if_pos hk] at h
      have hv : va = s := Option.some.inj h
      rw [← hv, ← hk]
      exact List.mem_cons_self _ _
    · rw [if_neg hk] at h
      exact List.mem_cons_of_mem _ (lookupS_mem h)

/-! ### The step function in branch normal form -/

theorem step_eq (cap : Int) (hashFn : String → String) (st : EngineState) (r : Row) :
    step cap hashFn st r =
      if r.frame_number = none ∨ r.time_epoch = none then
        { st with packet_count := st.packet_count + 1 }
      else if rowSrcIp r = "" ∨ rowDstIp r = "" then
        { st with packet_count := st.packet_count + 1,
                  first_ts := some (mergeMinQ st.first_ts (rowTsQ r)),
                  last_ts := some (mergeMaxQ st.last_ts (rowTsQ r)) }
      else
        { st with packet_count := st.packet_count + 1,
                  first_ts := some (mergeMinQ st.first_ts (rowTsQ r)),
                  last_ts := some (mergeMaxQ st.last_ts (rowTsQ r)),
                  sessions := updateAssoc st.sessions (rowSessionKey r)
                    (hitSession cap hashFn (lookupS st.sessions (rowSessionKey r)) r),
                  events := st.events ++ rowEvents (hashFn (rowSessionKey r)) r (rowTsQ r) (rowFrameNo r) } := rfl

/-- Claim C6: a record missing its frame number or timestamp, or missing
its source or destination address, creates or mutates no session and
emits no timeline event, while the packets-processed counter still
increments for it. -/
theorem dropped_record_no_session (cap : Int) (hashFn : String → String)
    (st : EngineState) (r : Row)
    (h : r.frame_number = none ∨ r.time_epoch = none ∨ rowSrcIp r = "" ∨ rowDstIp r = "") :
    (step cap hashFn st r).sessions = st.sessions ∧
    (step cap hashFn st r).events = st.events ∧
    (step cap hashFn st r).packet_count = st.packet_count + 1 := by
  rw [step_eq]
  by_cases hd : r.frame_number = none ∨ r.time_epoch = none
  · rw [if_pos hd]
    exact ⟨rfl, rfl, rfl⟩
  · have hip : rowSrcIp r = "" ∨ rowDstIp r = "" := by tauto
    rw [if_neg hd, if_pos hip]
    exact ⟨rfl, rfl, rfl⟩

/-- Concrete instance of dropped_record_no_session: a fully empty record
is counted but touches neither sessions nor the timeline. -/
theorem dropped_record_no_session_witness :
    (rowEmpty.frame_number = none ∨ rowEmpty.time_epoch = none ∨
      rowSrcIp rowEmpty = "" ∨ rowDstIp rowEmpty = "") ∧
    (step 8 idHash initState rowEmpty).sessions = initState.sessions ∧
    (step 8 idHash initState rowEmpty).events = initState.events ∧
    (step 8 idHash initState rowEmpty).packet_count = initState.packet_count + 1 :=
  ⟨Or.inl rfl,
    (dropped_record_no_session 8 idHash initState rowEmpty (Or.inl rfl)).1,
    (dropped_record_no_session 8 idHash initState rowEmpty (Or.inl rfl)).2.1,
    (dropped_record_no_session 8 idHash initState rowEmpty (Or.inl rfl)).2.2⟩

/-! ### Predicates preserved by aggregation -/

theorem sessions_pred_step (cap : Int) (hashFn : String → String) {P : Session → Prop}
    (hupd : ∀ s r frameNo ts, P s → P (updateSession cap s r frameNo ts))
    (hnew : ∀ sid transport a b ts frameNo, P (newSession sid transport a b ts frameNo))
    {st : EngineState} (hst : ∀ kv ∈ st.sessions, P kv.2) (r : Row) :
    ∀ kv ∈ (step cap hashFn st r).sessions, P kv.2 := by
  intro kv hkv
  rw [step_eq] at hkv
  by_cases hd : r.frame_number = none ∨ r.time_epoch = none
  · rw [if_pos hd] at hkv
    exact hst kv hkv
  · rw [if_neg hd] at hkv
    by_cases hip : rowSrcIp r = "" ∨ rowDstIp r = ""
    · rw [if_pos hip] at hkv
      exact hst kv hkv
    · rw [if_neg hip] at hkv
      rcases mem_updateAssoc hkv with h | h
      · rw [h]
        show P (hitSession cap hashFn (lookupS st.sessions (rowSessionKey r)) r)
        unfold hitSession
        cases hl : lookupS st.sessions (rowSessionKey r) with
        | none => exact hupd _ _ _ _ (hnew _ _ _ _ _ _)
        | some s0 => exact hupd _ _ _ _ (hst (rowSessionKey r, s0) (lookupS_mem hl))
      · exact hst kv h

theorem sessions_pred_runEngine (cap : Int) (hashFn : String → String) {P : Session → Prop}
    (hupd : ∀ s r frameNo ts, P s → P (updateSession cap s r frameNo ts))
    (hnew : ∀ sid transport a b ts frameNo, P (newSession sid transport a b ts frameNo))
    (rows : List Row) :
    ∀ kv ∈ (runEngine cap hashFn rows).sessions, P kv.2 := by
  have main : ∀ (l : List Row) (st : EngineState), (∀ kv ∈ st.sessions, P kv.2) →
      ∀ kv ∈ (l.foldl (step cap hashFn) st).sessions, P kv.2 := by
    intro l
    induction l with
    | nil => intro st hst; exact hst
    | cons r t ih =>
      intro st hst
      exact ih (step cap hashFn st r) (sessions_pred_step cap hashFn hupd hnew hst r)
  exact main rows initState (by simp [initState])

/-- Claim C4: the evidence sample list of every session is bounded by the
configured cap, both in the aggregation state and after finalization. -/
theorem sample_frames_bounded (cap : Int) (hashFn : String → String) (rows : List Row)
    (k : String) (s : Session) (hcap : 0 ≤ cap)
    (h : lookupS (runEngine cap hashFn rows).sessions k = some s) :
    (s.evidence.sample_frames.length : Int) ≤ cap ∧
    ((finalizeSession s).evidence.sample_frames.length : Int) ≤ cap := by
  have hmem := lookupS_mem h
  have hP := sessions_pred_runEngine cap hashFn
    (P := fun s => (s.evidence.sample_frames.length : Int) ≤ max cap 0)
    (by
      intro s r frameNo ts hs
      simp only [updateSession]
      by_cases hlt : (s.evidence.sample_frames.length : Int) < cap
      · rw [if_pos hlt]
        have : (s.evidence.sample_frames.length : Int) + 1 ≤ cap := Int.add_one_le_iff.mpr hlt
        simp only [List.length_append, List.length_singleton]
        push_cast
        exact le_trans this (le_max_left _ _)
      · rw [if_neg hlt]
        exact hs)
    (by intro sid transport a b ts frameNo; simp [newSession, le_max_iff])
    rows (k, s) hmem
  rw [max_eq_left hcap] at hP
  exact ⟨hP, hP⟩

/-- Concrete instance of sample_frames_bounded on a two-record
conversation with the default cap 8. -/
theorem sample_frames_bounded_witness :
    (0:Int) ≤ 8 ∧
    lookupS (runEngine 8 idHash [row1, row2]).sessions "other:a:None->b:None" = some sess12 ∧
    (sess12.evidence.sample_frames.length : Int) ≤ 8 :=
  ⟨by decide, by decide,
    (sample_frames_bounded 8 idHash [row1, row2] "other:a:None->b:None" sess12
      (by decide) (by decide)).1⟩

/-- Claim C5: for every session in the aggregation state last_ts is at
least first_ts, and the finalized duration equals last_ts - first_ts and
is non-negative. -/
theorem duration_nonneg (cap : Int) (hashFn : String → String) (rows : List Row)
    (k : String) (s : Session)
    (h : lookupS (runEngine cap hashFn rows).sessions k = some s) :
    s.first_ts ≤ s.last_ts ∧
    (finalizeSession s).duration_seconds = s.last_ts - s.first_ts ∧
    0 ≤ (finalizeSession s).duration_seconds := by
  have hP := sessions_pred_runEngine cap hashFn
    (P := fun s => s.first_ts ≤ s.last_ts)
    (by
      intro s r frameNo ts hs
      simp only [updateSession]
      exact le_trans (min_le_left _ _) (le_trans hs (le_max_left _ _)))
    (by intro sid transport a b ts frameNo; simp [newSession])
    rows (k, s) (lookupS_mem h)
  refine ⟨hP, rfl, ?_⟩
  show 0 ≤ s.last_ts - s.first_ts
  exact sub_nonneg.mpr hP

/-- Concrete instance of duration_nonneg on the two-record
conversation. -/
theorem duration_nonneg_witness :
    lookupS (runEngine 8 idHash [row1, row2]).sessions "other:a:None->b:None" = some sess12 ∧
    sess12.first_ts ≤ sess12.last_ts ∧
    0 ≤ (finalizeSession sess12).duration_seconds :=
  ⟨by decide,
    (duration_nonneg 8 idHash [row1, row2] "other:a:None->b:None" sess12 (by decide)).1,
    (duration_nonneg 8 idHash [row1, row2] "other:a:None->b:None" sess12 (by decide)).2.2⟩

/-! ### Sort comparators are total preorders -/

theorem strLe_trans {a b c : String} (h1 : strLe a b = true) (h2 : strLe b c = true) :
    strLe a c = true := by
  simp only [strLe, Bool.or_eq_true, beq_iff_eq] at h1 h2 ⊢
  rcases h1 with h1 | h1
  · rcases h2 with h2 | h2
    · exact Or.inl (charListLt_trans _ _ _ h1 h2)
    · exact Or.inl (h2 ▸ h1)
  · exact h1 ▸ h2

theorem strLe_total (a b : String) : (strLe a b || strLe b a) = true := by
  simp only [strLe, Bool.or_eq_true, beq_iff_eq]
  rcases charListLt_trichotomy a.data b.data with h | h | h
  · exact Or.inl (Or.inl h)
  · exact Or.inl (Or.inr (String.ext h))
  · exact Or.inr (Or.inl h)

theorem sessionLe_trans (a b c : Session) (h1 : sessionLe a b = true) (h2 : sessionLe b c = true) :
    sessionLe a c = true := by
  simp only [sessionLe, Bool.or_eq_true, Bool.and_eq_true, decide_eq_true_eq] at h1 h2 ⊢
  rcases h1 with h1 | ⟨he1, hs1⟩
  · rcases h2 with h2 | ⟨he2, _⟩
    · exact Or.inl (lt_trans h1 h2)
    · exact Or.inl (he2 ▸ h1)
  · rcases h2 with h2 | ⟨he2, hs2⟩
    · exact Or.inl (he1 ▸ h2)
    · exact Or.inr ⟨he1.trans he2, strLe_trans hs1 hs2⟩

theorem sessionLe_total (a b : Session) : (sessionLe a b || sessionLe b a) = true := by
  simp only [sessionLe, Bool.or_eq_true, Bool.and_eq_true, decide_eq_true_eq]
  rcases lt_trichotomy a.first_ts b.first_ts with h | h | h
  · exact Or.inl (Or.inl h)
  · rcases Bool.or_eq_true _ _ |>.mp (strLe_total a.id b.id) with hs | hs
    · exact Or.inl (Or.inr ⟨h, hs⟩)
    · exact Or.inr (Or.inr ⟨h.symm, hs⟩)
  · exact Or.inr (Or.inl h)

theorem eventLe_trans (a b c : TimelineEvent) (h1 : eventLe a b = true) (h2 : eventLe b c = true) :
    eventLe a c = true := by
  simp only [eventLe, decide_eq_true_eq] at h1 h2 ⊢
  exact le_trans h1 h2

theorem eventLe_total (a b : TimelineEvent) : (eventLe a b || eventLe b a) = true := by
  simp only [eventLe, Bool.or_eq_true, decide_eq_true_eq]
  exact le_total a.ts b.ts

/-! ### The artifact -/

/-- Claim C9: with hashing skipped the artifact records the hash as
absent (none) rather than any fabricated value, with hashing enabled it
records the streamed digest of the file, and no other part of the
artifact depends on the flag. -/
theorem sha256_absent_when_skipped (pcapPath fileName : String) (sizeBytes : Int)
    (sha256File : String → String) (tsharkBin : String) (tsharkVersion : Option String)
    (now : String) (cap : Int) (hashFn : String → String) (rows : List Row) :
    (analyze_pcap pcapPath fileName sizeBytes sha256File false tsharkBin tsharkVersion
      now cap hashFn rows).pcap.sha256 = none ∧
    (analyze_pcap pcapPath fileName sizeBytes sha256File true tsharkBin tsharkVersion
      now cap hashFn rows).pcap.sha256 = some (sha256File pcapPath) ∧
    ∀ b1 b2 : Bool,
      (analyze_pcap pcapPath fileName sizeBytes sha256File b1 tsharkBin tsharkVersion
        now cap hashFn rows).sessions =
      (analyze_pcap pcapPath fileName sizeBytes sha256File b2 tsharkBin tsharkVersion
        now cap hashFn rows).sessions ∧
      (analyze_pcap pcapPath fileName sizeBytes sha256File b1 tsharkBin tsharkVersion
        now cap hashFn rows).timeline =
      (analyze_pcap pcapPath fileName sizeBytes sha256File b2 tsharkBin tsharkVersion
        now cap hashFn rows).timeline ∧
      (analyze_pcap pcapPath fileName sizeBytes sha256File b1 tsharkBin tsharkVersion
        now cap hashFn rows).pcap.packets_analyzed =
      (analyze_pcap pcapPath fileName sizeBytes sha256File b2 tsharkBin tsharkVersion
        now cap hashFn rows).pcap.packets_analyzed ∧
      (analyze_pcap pcapPath fileName sizeBytes sha256File b1 tsharkBin tsharkVersion
        now cap hashFn rows).pcap.first_ts =
      (analyze_pcap pcapPath fileName sizeBytes sha256File b2 tsharkBin tsharkVersion
        now cap hashFn rows).pcap.first_ts ∧
      (analyze_pcap pcapPath fileName sizeBytes sha256File b1 tsharkBin tsharkVersion
        now cap hashFn rows).pcap.last_ts =
      (analyze_pcap pcapPath fileName sizeBytes sha256File b2 tsharkBin tsharkVersion
        now cap hashFn rows).pcap.last_ts :=
  ⟨rfl, rfl, fun _ _ => ⟨rfl, rfl, rfl, rfl, rfl⟩⟩

/-- Claim C8: with all external inputs fixed (records, file metadata,
digest functions, tool identity), two runs differ at most in
generated_at; and the session array is sorted by (first_ts ascending,
session id ascending). -/
theorem artifact_deterministic (pcapPath fileName : String) (sizeBytes : Int)
    (sha256File : String → String) (includeSha256 : Bool)
    (tsharkBin : String) (tsharkVersion : Option String) (now1 now2 : String)
    (cap : Int) (hashFn : String → String) (rows : List Row) :
    (analyze_pcap pcapPath fileName sizeBytes sha256File includeSha256 tsharkBin tsharkVersion
      now1 cap hashFn rows).schema_version =
    (analyze_pcap pcapPath fileName sizeBytes sha256File includeSha256 tsharkBin tsharkVersion
      now2 cap hashFn rows).schema_version ∧
    (analyze_pcap pcapPath fileName sizeBytes sha256File includeSha256 tsharkBin tsharkVersion
      now1 cap hashFn rows).pcap =
    (analyze_pcap pcapPath fileName sizeBytes sha256File includeSha256 tsharkBin tsharkVersion
      now2 cap hashFn rows).pcap ∧
    (analyze_pcap pcapPath fileName sizeBytes sha256File includeSha256 tsharkBin tsharkVersion
      now1 cap hashFn rows).tooling =
    (analyze_pcap pcapPath fileName sizeBytes sha256File includeSha256 tsharkBin tsharkVersion
      now2 cap hashFn rows).tooling ∧
    (analyze_pcap pcapPath fileName sizeBytes sha256File includeSha256 tsharkBin tsharkVersion
      now1 cap hashFn rows).sessions =
    (analyze_pcap pcapPath fileName sizeBytes sha256File includeSha256 tsharkBin tsharkVersion
      now2 cap hashFn rows).sessions ∧
    (analyze_pcap pcapPath fileName sizeBytes sha256File includeSha256 tsharkBin tsharkVersion
      now1 cap hashFn rows).timeline =
    (analyze_pcap pcapPath fileName sizeBytes sha256File includeSha256 tsharkBin tsharkVersion
      now2 cap hashFn rows).timeline ∧
    ((analyze_pcap pcapPath fileName sizeBytes sha256File includeSha256 tsharkBin tsharkVersion
      now1 cap hashFn rows).sessions).Pairwise (fun s1 s2 => sessionLe s1 s2 = true) :=
  ⟨rfl, rfl, rfl, rfl, rfl, List.sorted_mergeSort sessionLe_trans sessionLe_total _⟩

/-! ### Global time bounds -/

theorem coversState_step (cap : Int) (hashFn : String → String)
    {st : EngineState} {t : ℚ} (h : coversState st t) (r : Row) :
    coversState (step cap hashFn st r) t := by
  obtain ⟨hf, hl, hft, hlt⟩ := h
  obtain ⟨x, hx⟩ := Option.ne_none_iff_exists'.mp hf
  obtain ⟨y, hy⟩ := Option.ne_none_iff_exists'.mp hl
  rw [hx, Option.getD_some] at hft
  rw [hy, Option.getD_some] at hlt
  rw [step_eq]
  split_ifs with h1 h2
  · exact ⟨hf, hl, by rw [hx]; exact hft, by rw [hy]; exact hlt⟩
  all_goals
    refine ⟨by simp, by simp, ?_, ?_⟩
    · rw [hx]
      simp only [mergeMinQ, Option.getD_some]
      exact le_trans (min_le_left _ _) hft
    · rw [hy]
      simp only [mergeMaxQ, Option.getD_some]
      exact le_trans hlt (le_max_left _ _)

theorem coversState_step_self (cap : Int) (hashFn : String → String)
    (st : EngineState) {r : Row} {t : ℚ}
    (hfr : r.frame_number ≠ none) (hts : r.time_epoch = some t) :
    coversState (step cap hashFn st r) t := by
  have hd : ¬ (r.frame_number = none ∨ r.time_epoch = none) := by
    simp [hfr, hts]
  have htq : rowTsQ r = t := by simp [rowTsQ, hts]
  rw [step_eq, if_neg hd]
  have hmin : mergeMinQ st.first_ts (rowTsQ r) ≤ t := by
    cases hst : st.first_ts with
    | none => simp [mergeMinQ, htq]
    | some y => simp [mergeMinQ, htq, min_le_right]
  have hmax : t ≤ mergeMaxQ st.last_ts (rowTsQ r) := by
    cases hst : st.last_ts with
    | none => simp [mergeMaxQ, htq]
    | some y => simp [mergeMaxQ, htq, le_max_right]
  split_ifs with h2 <;>
    exact ⟨by simp, by simp, by simpa using hmin, by simpa using hmax⟩

theorem coversState_foldl (cap : Int) (hashFn : String → String)
    (l : List Row) {st : EngineState} {t : ℚ} (h : coversState st t) :
    coversState (l.foldl (step cap hashFn) st) t := by
  induction l generalizing st with
  | nil => exact h
  | cons r rest ih => exact ih (coversState_step cap hashFn h r)

/-- Claim C10: a row carrying a frame number and a timestamp but no
source or destination address still updates only the packet counter and
the global observed time bounds (the bound tracking runs before the
address check), and in the final artifact the observed time bounds cover
the timestamp of every such row of the input. -/
theorem global_bounds_cover (pcapPath fileName : String) (sizeBytes : Int)
    (sha256File : String → String) (includeSha256 : Bool)
    (tsharkBin : String) (tsharkVersion : Option String) (now : String)
    (cap : Int) (hashFn : String → String)
    (rows : List Row) (r : Row) (t : ℚ) (st : EngineState)
    (hmem : r ∈ rows) (hfr : r.frame_number ≠ none) (hts : r.time_epoch = some t)
    (hip : rowSrcIp r = "" ∨ rowDstIp r = "") :
    step cap hashFn st r =
      { st with packet_count := st.packet_count + 1,
                first_ts := some (mergeMinQ st.first_ts t),
                last_ts := some (mergeMaxQ st.last_ts t) } ∧
    (analyze_pcap pcapPath fileName sizeBytes sha256File includeSha256 tsharkBin tsharkVersion
      now cap hashFn rows).pcap.first_ts ≠ none ∧
    (analyze_pcap pcapPath fileName sizeBytes sha256File includeSha256 tsharkBin tsharkVersion
      now cap hashFn rows).pcap.last_ts ≠ none ∧
    ((analyze_pcap pcapPath fileName sizeBytes sha256File includeSha256 tsharkBin tsharkVersion
      now cap hashFn rows).pcap.first_ts).getD 0 ≤ t ∧
    t ≤ ((analyze_pcap pcapPath fileName sizeBytes sha256File includeSha256 tsharkBin tsharkVersion
      now cap hashFn rows).pcap.last_ts).getD 0 := by
  constructor
  · have hd : ¬ (r.frame_number = none ∨ r.time_epoch = none) := by
      simp [hfr, hts]
    have htq : rowTsQ r = t := by simp [rowTsQ, hts]
    rw [step_eq, if_neg hd, if_pos hip, htq]
  · obtain ⟨l1, l2, hsplit⟩ := List.append_of_mem hmem
    have hcov : coversState (runEngine cap hashFn rows) t := by
      rw [hsplit]
      show coversState ((l1 ++ r :: l2).foldl (step cap hashFn) initState) t
      rw [List.foldl_append, List.foldl_cons]
      exact coversState_foldl cap hashFn l2
        (coversState_step_self cap hashFn _ hfr hts)
    exact ⟨hcov.1, hcov.2.1, hcov.2.2.1, hcov.2.2.2⟩

/-- Concrete instance of global_bounds_cover: an address-less row with
timestamp 9 widens the artifact bounds of a run that also contains the
two-record conversation. -/
theorem global_bounds_cover_witness :
    rowNoAddr ∈ [row1, rowNoAddr, row2] ∧
    rowNoAddr.frame_number ≠ none ∧
    rowNoAddr.time_epoch = some 9 ∧
    (rowSrcIp rowNoAddr = "" ∨ rowDstIp rowNoAddr = "") ∧
    ((analyze_pcap "p" "f" 0 idHash true "tshark" none "now" 8 idHash
      [row1, rowNoAddr, row2]).pcap.first_ts).getD 0 ≤ 9 ∧
    (9:ℚ) ≤ ((analyze_pcap "p" "f" 0 idHash true "tshark" none "now" 8 idHash
      [row1, rowNoAddr, row2]).pcap.last_ts).getD 0 :=
  ⟨by decide, by decide, by decide, Or.inl rfl,
    (global_bounds_cover "p" "f" 0 idHash true "tshark" none "now" 8 idHash
      [row1, rowNoAddr, row2] rowNoAddr 9 initState
      (by decide) (by decide) (by decide) (Or.inl rfl)).2.2.2.1,
    (global_bounds_cover "p" "f" 0 idHash true "tshark" none "now" 8 idHash
      [row1, rowNoAddr, row2] rowNoAddr 9 initState
      (by decide) (by decide) (by decide) (Or.inl rfl)).2.2.2.2⟩

/-! ### Timeline sorting -/

/-- Claim C7: the artifact timeline is a permutation of the emitted
events, sorted by timestamp ascending, and stably so: the subsequence of
events sharing any fixed timestamp appears in the timeline in its
original emission order. -/
theorem timeline_sorted_stable (pcapPath fileName : String) (sizeBytes : Int)
    (sha256File : String → String) (includeSha256 : Bool)
    (tsharkBin : String) (tsharkVersion : Option String) (now : String)
    (cap : Int) (hashFn : String → String) (rows : List Row) :
    ((analyze_pcap pcapPath fileName sizeBytes sha256File includeSha256 tsharkBin tsharkVersion
      now cap hashFn rows).timeline).Perm ((runEngine cap hashFn rows).events) ∧
    ((analyze_pcap pcapPath fileName sizeBytes sha256File includeSha256 tsharkBin tsharkVersion
      now cap hashFn rows).timeline).Pairwise (fun e1 e2 => e1.ts ≤ e2.ts) ∧
    ∀ t : ℚ,
      ((analyze_pcap pcapPath fileName sizeBytes sha256File includeSha256 tsharkBin tsharkVersion
        now cap hashFn rows).timeline).filter (fun e => e.ts == t)
      = ((runEngine cap hashFn rows).events).filter (fun e => e.ts == t) := by
  refine ⟨List.mergeSort_perm _ _, ?_, ?_⟩
  · exact (List.sorted_mergeSort eventLe_trans eventLe_total _).imp
      (fun h => by simpa [eventLe] using h)
  · intro t
    have hperm : (((runEngine cap hashFn rows).events).mergeSort eventLe).Perm
        ((runEngine cap hashFn rows).events) := List.mergeSort_perm _ _
    have hmemt : ∀ e ∈ ((runEngine cap hashFn rows).events).filter (fun e => e.ts == t),
        e.ts = t := by
      intro e he
      exact beq_iff_eq.mp (List.mem_filter.mp he).2
    have hpair : (((runEngine cap hashFn rows).events).filter (fun e => e.ts == t)).Pairwise
        (fun a b => eventLe a b = true) := by
      apply List.pairwise_of_forall_mem_list
      intro a ha b hb
      simp only [eventLe, decide_eq_true_eq]
      rw [hmemt a ha, hmemt b hb]
    have hsub : (((runEngine cap hashFn rows).events).filter (fun e => e.ts == t)).Sublist
        (((runEngine cap hashFn rows).events).mergeSort eventLe) :=
      List.sublist_mergeSort eventLe_trans eventLe_total hpair (List.filter_sublist _)
    have hsub2 : (((runEngine cap hashFn rows).events).filter (fun e => e.ts == t)).Sublist
        ((((runEngine cap hashFn rows).events).mergeSort eventLe).filter (fun e => e.ts == t)) := by
      have hmono := List.Sublist.filter (fun e => e.ts == t) hsub
      have hself : ((((runEngine cap hashFn rows).events).filter (fun e => e.ts == t)).filter
          (fun e => e.ts == t)) = ((runEngine cap hashFn rows).events).filter (fun e => e.ts == t) :=
        List.filter_eq_self.mpr (fun a ha => (List.mem_filter.mp ha).2)
      rwa [hself] at hmono
    have hlen : ((((runEngine cap hashFn rows).events).mergeSort eventLe).filter
          (fun e => e.ts == t)).length
        = (((runEngine cap hashFn rows).events).filter (fun e => e.ts == t)).length :=
      (hperm.filter _).length_eq
    show ((((runEngine cap hashFn rows).events).mergeSort eventLe).filter (fun e => e.ts == t))
        = ((runEngine cap hashFn rows).events).filter (fun e => e.ts == t)
    exact (hsub2.eq_of_length hlen.symm).symm

/-! ### Folded min/max over a multiset -/

theorem foldlMin_le_init : ∀ (l : List ℚ) (x : ℚ), l.foldl min x ≤ x
  | [], x => le_refl x
  | a :: t, x => le_trans (foldlMin_le_init t (min x a)) (min_le_left x a)

theorem foldlMin_mem : ∀ (l : List ℚ) (x : ℚ), l.foldl min x ∈ x :: l
  | [], _ => List.mem_singleton.mpr rfl
  | a :: t, x => by
    rw [List.foldl_cons]
    have h := foldlMin_mem t (min x a)
    rcases List.mem_cons.mp h with h | h
    · rw [h]
      rcases min_choice x a with hc | hc
      · rw [hc]
        exact List.mem_cons_self _ _
      · rw [hc]
        exact List.mem_cons_of_mem _ (List.mem_cons_self _ _)
    · exact List.mem_cons_of_mem _ (List.mem_cons_of_mem _ h)

theorem foldlMin_le : ∀ (l : List ℚ) (x y : ℚ), y ∈ x :: l → l.foldl min x ≤ y
  | [], x, y, h => le_of_eq (List.mem_singleton.mp h).symm
  | a :: t, x, y, h => by
    rcases List.mem_cons.mp h with h | h
    · subst h
      exact le_trans (foldlMin_le_init t (min y a)) (min_le_left y a)
    · rcases List.mem_cons.mp h with h | h
      · subst h
        exact le_trans (foldlMin_le_init t (min x y)) (min_le_right x y)
      · exact foldlMin_le t (min x a) y (List.mem_cons_of_mem _ h)

theorem foldlMin_perm {x x' : ℚ} {l l' : List ℚ} (h : (x :: l).Perm (x' :: l')) :
    l.foldl min x = l'.foldl min x' := by
  apply le_antisymm
  · exact foldlMin_le l x _ (h.mem_iff.mpr (foldlMin_mem l' x'))
  · exact foldlMin_le l' x' _ (h.mem_iff.mp (foldlMin_mem l x))

theorem foldlMax_init_le : ∀ (l : List ℚ) (x : ℚ), x ≤ l.foldl max x
  | [], x => le_refl x
  | a :: t, x => le_trans (le_max_left x a) (foldlMax_init_le t (max x a))

theorem foldlMax_mem : ∀ (l : List ℚ) (x : ℚ), l.foldl max x ∈ x :: l
  | [], _ => List.mem_singleton.mpr rfl
  | a :: t, x => by
    rw [List.foldl_cons]
    have h := foldlMax_mem t (max x a)
    rcases List.mem_cons.mp h with h | h
    · rw [h]
      rcases max_choice x a with hc | hc
      · rw [hc]
        exact List.mem_cons_self _ _
      · rw [hc]
        exact List.mem_cons_of_mem _ (List.mem_cons_self _ _)
    · exact List.mem_cons_of_mem _ (List.mem_cons_of_mem _ h)

theorem foldlMax_le : ∀ (l : List ℚ) (x y : ℚ), y ∈ x :: l → y ≤ l.foldl max x
  | [], x, y, h => le_of_eq (List.mem_singleton.mp h)
  | a :: t, x, y, h => by
    rcases List.mem_cons.mp h with h | h
    · subst h
      exact le_trans (le_max_left y a) (foldlMax_init_le t (max y a))
    · rcases List.mem_cons.mp h with h | h
      · subst h
        exact le_trans (le_max_right x y) (foldlMax_init_le t (max x y))
      · exact foldlMax_le t (max x a) y (List.mem_cons_of_mem _ h)

theorem foldlMax_perm {x x' : ℚ} {l l' : List ℚ} (h : (x :: l).Perm (x' :: l')) :
    l.foldl max x = l'.foldl max x' := by
  apply le_antisymm
  · exact foldlMax_le l' x' _ (h.mem_iff.mp (foldlMax_mem l x))
  · exact foldlMax_le l x _ (h.mem_iff.mpr (foldlMax_mem l' x'))

/-! ### Field views of the per-key fold -/

theorem updFold_packet (cap : Int) : ∀ (l : List Row) (s : Session),
    (l.foldl (updRow cap) s).packet_count = s.packet_count + l.length
  | [], s => by simp
  | r :: t, s => by
    rw [List.foldl_cons, updFold_packet cap t (updRow cap s r)]
    show (s.packet_count + 1) + t.length = s.packet_count + (r :: t).length
    simp only [List.length_cons]
    omega

theorem updFold_bytes (cap : Int) : ∀ (l : List Row) (s : Session),
    (l.foldl (updRow cap) s).byte_count = s.byte_count + (l.map rowBytes).sum
  | [], s => by simp
  | r :: t, s => by
    rw [List.foldl_cons, updFold_bytes cap t (updRow cap s r)]
    show (s.byte_count + rowBytes r) + (t.map rowBytes).sum
        = s.byte_count + ((r :: t).map rowBytes).sum
    simp [add_assoc]

theorem updFold_first (cap : Int) : ∀ (l : List Row) (s : Session),
    (l.foldl (updRow cap) s).first_ts = (l.map rowTsQ).foldl min s.first_ts
  | [], _ => rfl
  | r :: t, s => by
    simp only [List.foldl_cons, List.map_cons]
    exact updFold_first cap t (updRow cap s r)

theorem updFold_last (cap : Int) : ∀ (l : List Row) (s : Session),
    (l.foldl (updRow cap) s).last_ts = (l.map rowTsQ).foldl max s.last_ts
  | [], _ => rfl
  | r :: t, s => by
    simp only [List.foldl_cons, List.map_cons]
    exact updFold_last cap t (updRow cap s r)

theorem updFold_transport (cap : Int) : ∀ (l : List Row) (s : Session),
    (l.foldl (updRow cap) s).transport = s.transport
  | [], _ => rfl
  | r :: t, s => by
    rw [List.foldl_cons, updFold_transport cap t (updRow cap s r)]
    rfl

/-! ### The per-key view of the whole loop -/

theorem lookupS_step_key (cap : Int) (hashFn : String → String)
    (st : EngineState) (r : Row) (k : String) :
    lookupS (step cap hashFn st r).sessions k =
      if rowKey r = some k then applyHit cap hashFn (lookupS st.sessions k) r
      else lookupS st.sessions k := by
  rw [step_eq]
  by_cases hd : r.frame_number = none ∨ r.time_epoch = none
  · rw [if_pos hd]
    unfold rowKey
    rw [if_pos hd]
    simp
  · rw [if_neg hd]
    by_cases hip : rowSrcIp r = "" ∨ rowDstIp r = ""
    · rw [if_pos hip]
      unfold rowKey
      rw [if_neg hd, if_pos hip]
      simp
    · rw [if_neg hip]
      show lookupS (updateAssoc st.sessions (rowSessionKey r) _) k = _
      rw [lookupS_updateAssoc]
      unfold rowKey
      rw [if_neg hd, if_neg hip]
      by_cases hk : rowSessionKey r = k
      · rw [if_pos hk, if_pos (by rw [hk]), applyHit, hk]
      · rw [if_neg hk, if_neg (by simpa using hk)]

theorem lookupS_foldl_key (cap : Int) (hashFn : String → String) :
    ∀ (l : List Row) (st : EngineState) (k : String),
      lookupS (l.foldl (step cap hashFn) st).sessions k =
        (keyRows k l).foldl (applyHit cap hashFn) (lookupS st.sessions k)
  | [], _, _ => rfl
  | r :: t, st, k => by
    rw [List.foldl_cons, lookupS_foldl_key cap hashFn t (step cap hashFn st r) k]
    simp only [keyRows, List.filter_cons]
    by_cases hk : rowKey r = some k
    · rw [if_pos (by simpa using hk), List.foldl_cons, lookupS_step_key, if_pos hk]
    · rw [if_neg (by simpa using hk), lookupS_step_key, if_neg hk]

theorem lookupS_runEngine (cap : Int) (hashFn : String → String)
    (rows : List Row) (k : String) :
    lookupS (runEngine cap hashFn rows).sessions k = hitAgg cap hashFn (keyRows k rows) := by
  unfold runEngine hitAgg
  rw [lookupS_foldl_key]
  rfl

theorem lookupS_map_finalize : ∀ (m : List (String × Session)) (k : String),
    lookupS (m.map (fun kv => (kv.1, finalizeSession kv.2))) k
      = (lookupS m k).map finalizeSession
  | [], _ => rfl
  | (ka, va) :: rest, k => by
    simp only [List.map_cons, lookupS]
    by_cases hk : ka = k
    · rw [if_pos hk, if_pos hk]
      rfl
    · rw [if_neg hk, if_neg hk]
      exact lookupS_map_finalize rest k

theorem lookupS_finalSessions (cap : Int) (hashFn : String → String)
    (rows : List Row) (k : String) :
    lookupS (finalSessions cap hashFn rows) k
      = (hitAgg cap hashFn (keyRows k rows)).map finalizeSession := by
  unfold finalSessions
  rw [lookupS_map_finalize, lookupS_runEngine]

theorem foldl_applyHit_some (cap : Int) (hashFn : String → String) :
    ∀ (l : List Row) (s : Session),
      l.foldl (applyHit cap hashFn) (some s) = some (l.foldl (updRow cap) s)
  | [], _ => rfl
  | r :: t, s => by
    rw [List.foldl_cons, List.foldl_cons]
    exact foldl_applyHit_some cap hashFn t (updRow cap s r)

theorem hitAgg_cons (cap : Int) (hashFn : String → String) (h : Row) (t : List Row) :
    hitAgg cap hashFn (h :: t)
      = some (t.foldl (updRow cap) (updRow cap (rowNewSession hashFn h) h)) := by
  unfold hitAgg
  rw [List.foldl_cons]
  exact foldl_applyHit_some cap hashFn t _

theorem rowKey_of_mem_keyRows {k : String} {rows : List Row} {r : Row}
    (h : r ∈ keyRows k rows) : rowKey r = some k :=
  of_decide_eq_true (List.mem_filter.mp h).2

/-! ### The transport label is readable back from the key string -/

theorem append_head_ne {c1 c2 : Char} {s1 s2 t1 t2 : String}
    (h1 : s1.data.head? = some c1) (h2 : s2.data.head? = some c2) (hne : c1 ≠ c2) :
    s1 ++ t1 ≠ s2 ++ t2 := by
  intro h
  have hd := congrArg String.data h
  rw [String.data_append, String.data_append] at hd
  have hh := congrArg List.head? hd
  rw [List.head?_append, List.head?_append, h1, h2] at hh
  exact hne (Option.some.inj hh)

theorem session_key_transport_inj {t1 t2 : String} {a1 b1 a2 b2 : Endpoint}
    (h1 : t1 = "tcp" ∨ t1 = "udp" ∨ t1 = "other")
    (h2 : t2 = "tcp" ∨ t2 = "udp" ∨ t2 = "other")
    (h : session_key t1 a1 b1 = session_key t2 a2 b2) : t1 = t2 := by
  unfold session_key at h
  rcases h1 with h1 | h1 | h1 <;> rcases h2 with h2 | h2 | h2 <;> subst h1 <;> subst h2 <;>
    first
      | rfl
      | exact absurd h (append_head_ne rfl rfl (by decide))

theorem rowTransport_cases (r : Row) :
    rowTransport r = "tcp" ∨ rowTransport r = "udp" ∨ rowTransport r = "other" := by
  unfold rowTransport transportPorts
  split_ifs
  · exact Or.inl rfl
  · exact Or.inr (Or.inl rfl)
  · exact Or.inr (Or.inr rfl)

theorem rowKey_some_eq {r : Row} {k : String} (h : rowKey r = some k) :
    rowSessionKey r = k := by
  unfold rowKey at h
  split_ifs at h
  exact Option.some.inj h

theorem rowKey_transport_eq {r1 r2 : Row} {k : String}
    (h1 : rowKey r1 = some k) (h2 : rowKey r2 = some k) :
    rowTransport r1 = rowTransport r2 := by
  have e1 : rowSessionKey r1 = k := rowKey_some_eq h1
  have e2 : rowSessionKey r2 = k := rowKey_some_eq h2
  have hk : session_key (rowTransport r1) (rowA r1) (rowB r1)
      = session_key (rowTransport r2) (rowA r2) (rowB r2) := by
    unfold rowSessionKey at e1 e2
    rw [e1, e2]
  exact session_key_transport_inj (rowTransport_cases r1) (rowTransport_cases r2) hk

/-! ### Permutation invariance of the per-session aggregates -/

theorem hitAgg_aggregates_perm (cap : Int) (hashFn : String → String)
    {l l' : List Row} (hperm : l'.Perm l) (k : String)
    (hl : ∀ r ∈ l, rowKey r = some k) (hl' : ∀ r ∈ l', rowKey r = some k) :
    (hitAgg cap hashFn l').map (fun s => sessionAggregates (finalizeSession s))
      = (hitAgg cap hashFn l).map (fun s => sessionAggregates (finalizeSession s)) := by
  cases l with
  | nil =>
    rw [hperm.eq_nil]
  | cons h1 t1 =>
    cases l' with
    | nil => exact absurd hperm.symm.eq_nil (by simp)
    | cons h2 t2 =>
      rw [hitAgg_cons, hitAgg_cons]
      simp only [Option.map_some']
      congr 1
      have hpc : (t2.foldl (updRow cap) (updRow cap (rowNewSession hashFn h2) h2)).packet_count
          = (t1.foldl (updRow cap) (updRow cap (rowNewSession hashFn h1) h1)).packet_count := by
        rw [updFold_packet, updFold_packet]
        show (0 + 1) + t2.length = (0 + 1) + t1.length
        have := hperm.length_eq
        simp only [List.length_cons] at this
        omega
      have hby : (t2.foldl (updRow cap) (updRow cap (rowNewSession hashFn h2) h2)).byte_count
          = (t1.foldl (updRow cap) (updRow cap (rowNewSession hashFn h1) h1)).byte_count := by
        rw [updFold_bytes, updFold_bytes]
        show (0 + rowBytes h2) + (t2.map rowBytes).sum
            = (0 + rowBytes h1) + (t1.map rowBytes).sum
        have hs : ((h2 :: t2).map rowBytes).sum = ((h1 :: t1).map rowBytes).sum :=
          (hperm.map rowBytes).sum_eq
        simp only [List.map_cons, List.sum_cons] at hs
        omega
      have hfi : (t2.foldl (updRow cap) (updRow cap (rowNewSession hashFn h2) h2)).first_ts
          = (t1.foldl (updRow cap) (updRow cap (rowNewSession hashFn h1) h1)).first_ts := by
        rw [updFold_first, updFold_first]
        show (t2.map rowTsQ).foldl min (min (rowTsQ h2) (rowTsQ h2))
            = (t1.map rowTsQ).foldl min (min (rowTsQ h1) (rowTsQ h1))
        rw [min_self, min_self]
        have := hperm.map rowTsQ
        simp only [List.map_cons] at this
        exact foldlMin_perm this
      have hla : (t2.foldl (updRow cap) (updRow cap (rowNewSession hashFn h2) h2)).last_ts
          = (t1.foldl (updRow cap) (updRow cap (rowNewSession hashFn h1) h1)).last_ts := by
        rw [updFold_last, updFold_last]
        show (t2.map rowTsQ).foldl max (max (rowTsQ h2) (rowTsQ h2))
            = (t1.map rowTsQ).foldl max (max (rowTsQ h1) (rowTsQ h1))
        rw [max_self, max_self]
        have := hperm.map rowTsQ
        simp only [List.map_cons] at this
        exact foldlMax_perm this
      have htr : (t2.foldl (updRow cap) (updRow cap (rowNewSession hashFn h2) h2)).transport
          = (t1.foldl (updRow cap) (updRow cap (rowNewSession hashFn h1) h1)).transport := by
        rw [updFold_transport, updFold_transport]
        show rowTransport h2 = rowTransport h1
        exact rowKey_transport_eq (hl' h2 (List.mem_cons_self _ _)) (hl h1 (List.mem_cons_self _ _))
      simp only [sessionAggregates, finalizeSession, hpc, hby, hfi, hla, htr]

/-- Claim C3: for any permutation of the record stream, every session
key reaches the same packet count, byte total, first/last timestamps and
rule flags (hence so does any permutation that additionally preserves
per-session observation order, as the claim assumes). -/
theorem aggregates_perm_invariant (cap : Int) (hashFn : String → String)
    (rows rows' : List Row) (hperm : rows'.Perm rows) (k : String) :
    (lookupS (finalSessions cap hashFn rows') k).map sessionAggregates
      = (lookupS (finalSessions cap hashFn rows) k).map sessionAggregates := by
  rw [lookupS_finalSessions, lookupS_finalSessions, Option.map_map, Option.map_map]
  exact hitAgg_aggregates_perm cap hashFn (hperm.filter _) k
    (fun r hr => rowKey_of_mem_keyRows hr)
    (fun r hr => rowKey_of_mem_keyRows hr)

/-- Concrete instance of aggregates_perm_invariant: the two-record
conversation ingested in either order yields identical aggregates. -/
theorem aggregates_perm_invariant_witness :
    ([row2, row1]).Perm [row1, row2] ∧
    (lookupS (finalSessions 8 idHash [row2, row1]) "other:a:None->b:None").map sessionAggregates
      = (lookupS (finalSessions 8 idHash [row1, row2]) "other:a:None->b:None").map sessionAggregates :=
  ⟨by decide,
    aggregates_perm_invariant 8 idHash [row1, row2] [row2, row1] (by decide)
      "other:a:None->b:None"⟩

end Kisame
